import Mathlib

/-!
Shallow embedding of `src/evtxview.py` (evtxview, a PyQt viewer for Windows
event-log files) and verification of the frozen claims about it.

Python strings are modelled as `List Char`; a Python value that may be `None`
is an `Option`; an operation that may raise an exception returns an `Option`
result (`none` = the exception propagates).  Mutation of an object is modelled
by explicit state passing: a Python method that mutates `self` becomes a Lean
function returning the updated record.

External library calls (`lxml.etree.XML`, `PyEvtxParser`) are not code of this
repository: `etree.XML` is abstracted as a parameter
`xp : List Char → Option RawXml`, and the parser's output is the input list of
`RawRecord`s fed to `load_data`.
-/

/-- Python dictionary lookup `d[k]`: first binding for `k` (bindings are kept
unique by `dictInsert`), `none` = `KeyError`. -/
def assocFind {ν : Type} (d : List (List Char × ν)) (k : List Char) : Option ν :=
  match d with
  | [] => none
  | (k1, v) :: rest => if k1 = k then some v else assocFind rest k

/-- Python dictionary assignment `d[k] = v`: replaces the binding of `k` in
place if present, otherwise appends it. -/
def dictInsert {ν : Type} (d : List (List Char × ν)) (k : List Char) (v : ν) :
    List (List Char × ν) :=
  match d with
  | [] => [(k, v)]
  | (k1, v1) :: rest =>
    if k1 = k then (k, v) :: rest else (k1, v1) :: dictInsert rest k v

/-- Python `haystack.find(needle)` (index of first occurrence, `none` = -1). -/
def findSub (needle : List Char) : List Char → Option Nat
  | [] => if needle.isPrefixOf ([] : List Char) then some 0 else none
  | c :: rest =>
    if needle.isPrefixOf (c :: rest) then some 0
    else (findSub needle rest).map (· + 1)

/-- Python `needle in haystack` on strings (substring containment). -/
def containsSub (haystack needle : List Char) : Bool :=
  (findSub needle haystack).isSome

/-- Index of the last occurrence of `c` in the argument (`none` when absent):
the model of Python `s.rfind(c)`, with `none` standing for the -1 result. -/
def rlast (c : Char) : List Char → Option Nat
  | [] => none
  | x :: rest =>
    match rlast c rest with
    | some j => some (j + 1)
    | none => if x = c then some 0 else none

/-- Namespace removal from `XmlElement.__init__` (src/evtxview.py:19-20):
`idx = child.tag.rfind('}')` followed by `child.tag[idx+1:]`; when `'}'` is
absent, `rfind` yields -1 and the slice is the whole tag. -/
def stripNamespace (tag : List Char) : List Char :=
  match rlast '}' tag with
  | none => tag
  | some idx => tag.drop (idx + 1)

/-- Digit-string to number (`none` when empty or a non-digit appears). -/
def digitsToNat : List Char → Option Nat
  | [] => none
  | ds => ds.foldlM (fun acc c => if c.isDigit then some (acc * 10 + (c.toNat - 48)) else none) 0

/-- Python `int(s)` on a string, restricted to an optional leading sign
followed by decimal digits (the only shapes the program meets); any other
string is `none` = `ValueError`. -/
def strToInt : List Char → Option Int
  | '-' :: rest => (digitsToNat rest).map (fun n => -(n : Int))
  | s => (digitsToNat s).map Int.ofNat

/-- Python `lst.index(x)` (first position, `none` = `ValueError`). -/
def pyIndex (x : Nat) : List Nat → Option Nat
  | [] => none
  | y :: rest => if y = x then some 0 else (pyIndex x rest).map (· + 1)

/-- Models `pathlib.Path(filename).name` (library call): the part of the path
after the last `/`. -/
def pathName (f : List Char) : List Char :=
  match rlast '/' f with
  | none => f
  | some idx => f.drop (idx + 1)

/-- An element tree as `lxml.etree.XML` returns it: tag, attribute list,
child elements, optional text. -/
inductive RawXml where
  | node (tag : List Char) (attrib : List (List Char × List Char))
      (children : List RawXml) (text : Option (List Char))

def RawXml.tag : RawXml → List Char
  | node t _ _ _ => t

def RawXml.childList : RawXml → List RawXml
  | node _ _ c _ => c

/-- `XmlElement` (src/evtxview.py:14-32): a children dictionary keyed by
namespace-stripped tag, plus the wrapped raw node. -/
inductive XmlElement where
  | mk (children : List (List Char × XmlElement)) (node : RawXml)

def XmlElement.children : XmlElement → List (List Char × XmlElement)
  | mk c _ => c

/-- `XmlElement.text` property: the wrapped node's text. -/
def XmlElement.text : XmlElement → Option (List Char)
  | mk _ (RawXml.node _ _ _ t) => t

/-- `XmlElement.attrib` property: the wrapped node's attribute dictionary. -/
def XmlElement.attrib : XmlElement → List (List Char × List Char)
  | mk _ (RawXml.node _ a _ _) => a

mutual
/-- `XmlElement.__init__` (src/evtxview.py:15-21): for each child of the raw
node, store `XmlElement(child)` in the dictionary under the child's
namespace-stripped tag (a later child with the same stripped tag overwrites
the earlier one, as Python dict assignment does). -/
def XmlElement.ofRaw : RawXml → XmlElement
  | RawXml.node tag attrib children text =>
    XmlElement.mk
      ((XmlElement.ofRawChildren children).foldl
        (fun acc kv => dictInsert acc kv.1 kv.2) [])
      (RawXml.node tag attrib children text)

/-- The (stripped tag, wrapped child) pairs in document order. -/
def XmlElement.ofRawChildren : List RawXml → List (List Char × XmlElement)
  | [] => []
  | c :: rest =>
    (stripNamespace c.tag, XmlElement.ofRaw c) :: XmlElement.ofRawChildren rest
end

/-- `XmlElement.__getitem__` (src/evtxview.py:31-32): children dictionary
lookup, `none` = `KeyError`. -/
def XmlElement.getItem (x : XmlElement) (k : List Char) : Option XmlElement :=
  assocFind x.children k

/-- One record as `PyEvtxParser.records()` yields it: the dictionary fields
`event_record_id`, `timestamp`, `data` that `EventRecord.__init__` reads. -/
structure RawRecord where
  event_record_id : Nat
  timestamp : List Char
  data : List Char
deriving DecidableEq, Repr

/-- `EventRecord` state (src/evtxview.py:34-40): id, timestamp, raw XML data,
the `__parsed` flag and the `__attrib` dictionary.  An attribute value is an
`Option (List Char)` because element text may be Python `None`. -/
structure EventRecord where
  id : Nat
  timestamp : List Char
  data : List Char
  parsed : Bool
  attrib : List (List Char × Option (List Char))
deriving DecidableEq, Repr

/-- `EventRecord.__init__` (src/evtxview.py:35-40). -/
def EventRecord.init (r : RawRecord) : EventRecord :=
  { id := r.event_record_id
    timestamp := r.timestamp
    data := r.data
    parsed := false
    attrib := [] }

def keySystem : List Char := "System".toList
def keyEventID : List Char := "EventID".toList
def keyLevel : List Char := "Level".toList
def keyProvider : List Char := "Provider".toList
def keyName : List Char := "Name".toList

/-- `EventRecord.__parse_data` (src/evtxview.py:78-89).  Returns
`(succeeded, updated record)`; `succeeded = false` means an exception
propagates out of the call.  Faithful points: the guard tests `__parsed`,
which no statement of the source ever sets to `True`; the processing
instruction is stripped by reassigning `self.__data`; the three attribute
assignments happen one at a time, so a failure leaves the earlier ones in
place.  `root["System"]` is bound once here; the source evaluates it in each
of its three lines with the same result. -/
def EventRecord.parse_data (xp : List Char → Option RawXml) (r : EventRecord) :
    Bool × EventRecord :=
  if r.parsed then (true, r)
  else
    let data1 :=
      match findSub ['?', '>'] r.data with
      | some idx => r.data.drop (idx + 2)
      | none => r.data
    let r1 : EventRecord := { r with data := data1 }
    match xp data1 with
    | none => (false, r1)
    | some raw =>
      let root := XmlElement.ofRaw raw
      match root.getItem keySystem with
      | none => (false, r1)
      | some sys =>
        match sys.getItem keyEventID with
        | none => (false, r1)
        | some eidEl =>
          let r2 : EventRecord :=
            { r1 with attrib := dictInsert r1.attrib keyEventID eidEl.text }
          match sys.getItem keyLevel with
          | none => (false, r2)
          | some lvlEl =>
            let r3 : EventRecord :=
              { r2 with attrib := dictInsert r2.attrib keyLevel lvlEl.text }
            match sys.getItem keyProvider with
            | none => (false, r3)
            | some provEl =>
              match assocFind provEl.attrib keyName with
              | none => (false, r3)
              | some nm =>
                (true, { r3 with attrib := dictInsert r3.attrib keyProvider (some nm) })

/-- `EventRecord.EventID` property (src/evtxview.py:54-57): parse, then return
`__attrib["EventID"]`.  Outer `none` = an exception; the inner option is the
stored value, which may itself be Python `None`. -/
def EventRecord.EventID (xp : List Char → Option RawXml) (r : EventRecord) :
    Option (Option (List Char)) × EventRecord :=
  let (ok, r1) := r.parse_data xp
  if ok then
    match assocFind r1.attrib keyEventID with
    | some v => (some v, r1)
    | none => (none, r1)
  else (none, r1)

/-- `EventRecord.Provider` property (src/evtxview.py:59-62). -/
def EventRecord.Provider (xp : List Char → Option RawXml) (r : EventRecord) :
    Option (Option (List Char)) × EventRecord :=
  let (ok, r1) := r.parse_data xp
  if ok then
    match assocFind r1.attrib keyProvider with
    | some v => (some v, r1)
    | none => (none, r1)
  else (none, r1)

/-- The `levels` dictionary of `EventRecord.Level` (src/evtxview.py:66-73);
lookup outside its six keys is a `KeyError`, i.e. `none`. -/
def levels (n : Int) : Option (List Char) :=
  if n = 0 then some "LogAlways".toList
  else if n = 1 then some "Critical".toList
  else if n = 2 then some "Error".toList
  else if n = 3 then some "Warning".toList
  else if n = 4 then some "Informational".toList
  else if n = 5 then some "Verbose".toList
  else none

/-- `EventRecord.Level` property (src/evtxview.py:64-76): parse, convert
`__attrib["Level"]` with `int(...)`, and index the `levels` dictionary.
`none` in the first component = an exception (`KeyError` from `__attrib` or
`levels`, or `TypeError`/`ValueError` from `int`). -/
def EventRecord.Level (xp : List Char → Option RawXml) (r : EventRecord) :
    Option (List Char) × EventRecord :=
  let (ok, r1) := r.parse_data xp
  if ok then
    match assocFind r1.attrib keyLevel with
    | none => (none, r1)
    | some vOpt =>
      match vOpt with
      | none => (none, r1)
      | some s =>
        match strToInt s with
        | none => (none, r1)
        | some n => (levels n, r1)
  else (none, r1)

/-- The record store of `EvtxViewModel` (src/evtxview.py:110-111): the
`__records` dictionary keyed by record id and the `__record_ids` list.  (The
key type is `Nat`, so the dictionary is an association list over `Nat` rather
than over `List Char`.) -/
structure EvtxViewModel where
  records : List (Nat × EventRecord)
  record_ids : List Nat
deriving DecidableEq, Repr

/-- `d[k]` on the `Nat`-keyed records dictionary. -/
def natAssocFind (d : List (Nat × EventRecord)) (k : Nat) : Option EventRecord :=
  match d with
  | [] => none
  | (k1, v) :: rest => if k1 = k then some v else natAssocFind rest k

/-- `d[k] = v` on the `Nat`-keyed records dictionary. -/
def natDictInsert (d : List (Nat × EventRecord)) (k : Nat) (v : EventRecord) :
    List (Nat × EventRecord) :=
  match d with
  | [] => [(k, v)]
  | (k1, v1) :: rest =>
    if k1 = k then (k, v) :: rest else (k1, v1) :: natDictInsert rest k v

/-- `EvtxViewModel.load_data` (src/evtxview.py:122-127): for each parsed
record, `__records[id] = EventRecord(record)` and `__record_ids.append(id)`;
finally `__record_ids.sort()`.  Python's sort is modelled by
`List.insertionSort (· ≤ ·)`; on a list of natural numbers every sorting
algorithm produces the same list, so the choice is immaterial. -/
def EvtxViewModel.loadStep (m : EvtxViewModel) (rec : RawRecord) : EvtxViewModel :=
  { records := natDictInsert m.records rec.event_record_id (EventRecord.init rec)
    record_ids := m.record_ids ++ [rec.event_record_id] }

def EvtxViewModel.load_data (rs : List RawRecord) : EvtxViewModel :=
  let st := rs.foldl EvtxViewModel.loadStep { records := [], record_ids := [] }
  { st with record_ids := st.record_ids.insertionSort (· ≤ ·) }

/-- Diagnostics the specification expects the loader to record.  `load_data`
(src/evtxview.py:122-127) touches only `__records` and `__record_ids`, and no
other statement of the source appends to any diagnostics collection, so the
diagnostics of a loaded model are always the empty list. -/
inductive Diagnostic where
  | DuplicateRecordId (id : Nat)
deriving DecidableEq, Repr

def EvtxViewModel.diagnostics (_ : EvtxViewModel) : List Diagnostic := []

/-- The body of the list comprehension in `get_records`
(src/evtxview.py:180-181): look each id up in `__records`; a missing id would
be a `KeyError`, hence the `Option` result. -/
def lookupAll (records : List (Nat × EventRecord)) : List Nat → Option (List EventRecord)
  | [] => some []
  | rid :: rest =>
    match natAssocFind records rid with
    | none => none
    | some r =>
      match lookupAll records rest with
      | none => none
      | some l => some (r :: l)

/-- `EvtxViewModel.get_records` (src/evtxview.py:180-181):
`[self.__records[rid] for rid in self.__record_ids]`. -/
def EvtxViewModel.get_records (m : EvtxViewModel) : Option (List EventRecord) :=
  lookupAll m.records m.record_ids

/-- Lookup of a record by id, as the source performs it: the row is
`__record_ids.index(record_id)` with `ValueError` caught
(`EvtxView.scroll_to_record_id`, src/evtxview.py:204-210), and the record at a
row is `__records[__record_ids[row]]` (`EvtxViewModel.data`,
src/evtxview.py:160-162). -/
def EvtxViewModel.by_id (m : EvtxViewModel) (i : Nat) : Option EventRecord :=
  match pyIndex i m.record_ids with
  | none => none
  | some row =>
    match m.record_ids[row]? with
    | none => none
    | some rid => natAssocFind m.records rid

/-- The search condition of `MainWindow.action_search` (src/evtxview.py:334):
`(text in record.Provider) or (text in record.EventID) or
(self.searchInEVTData.isChecked() and (text in record.data))`, with Python
short-circuit evaluation and the state updates each property access performs.
`none` = an exception escapes the search (property raise, or `in` applied to
`None`). -/
def searchCond (xp : List Char → Option RawXml) (text : List Char) (inData : Bool)
    (r : EventRecord) : Option (Bool × EventRecord) :=
  match r.Provider xp with
  | (none, _) => none
  | (some provOpt, r1) =>
    match provOpt with
    | none => none
    | some prov =>
      if containsSub prov text then some (true, r1)
      else
        match r1.EventID xp with
        | (none, _) => none
        | (some eidOpt, r2) =>
          match eidOpt with
          | none => none
          | some eid =>
            if containsSub eid text then some (true, r2)
            else if inData then some (containsSub r2.data text, r2)
            else some (false, r2)

/-- The `found` accumulation loop of `MainWindow.action_search`
(src/evtxview.py:330-336): append `[record.id, record.timestamp]` for each
record satisfying the condition; an exception mid-loop aborts the whole
search (`none`). -/
def searchLoop (xp : List Char → Option RawXml) (text : List Char) (inData : Bool) :
    List EventRecord → Option (List (Nat × List Char))
  | [] => some []
  | r :: rest =>
    match searchCond xp text inData r with
    | none => none
    | some (b, _) =>
      match searchLoop xp text inData rest with
      | none => none
      | some tl => some (if b then (r.id, r.timestamp) :: tl else tl)

/-- The matched flag of one record, `false` when the condition's evaluation
raises (used only to phrase theorems; `searchLoop` is the loop itself). -/
def searchMatches (xp : List Char → Option RawXml) (text : List Char) (inData : Bool)
    (r : EventRecord) : Bool :=
  match searchCond xp text inData r with
  | some (b, _) => b
  | none => false

/-- `MainWindow.navigate_search` (src/evtxview.py:381-388), restricted to its
effect on `cur_search_index`: `n` is `len(self.found)` and `i` the current
index.  Direction -1 decrements and wraps a negative result to `n - 1`;
direction 1 increments and reduces modulo `n`; any other direction leaves the
index alone (the handlers only ever pass -1 or 1). -/
def navigate_search (n : Nat) (direction : Int) (i : Int) : Int :=
  if direction = -1 then
    let i1 := i - 1
    if i1 < 0 then (n : Int) - 1 else i1
  else if direction = 1 then (i + 1) % (n : Int)
  else i

/-- The `MainWindow` state that `open_file` touches (src/evtxview.py:254-289):
the `__files` dictionary mapping filename to tab index, the tab widget's list
of tabs (each tab shown with `Path(filename).name` as its label), and the
current tab index. -/
structure MainWindowState where
  files : List (List Char × Nat)
  tabs : List (List Char)
  current : Nat
deriving DecidableEq, Repr

/-- `MainWindow.open_file` (src/evtxview.py:270-289): an already-open
filename selects its stored tab index; otherwise a tab is appended
(`QTabWidget.addTab` returns the new tab's index, the previous tab count) and
recorded in `__files`; either way that index becomes current. -/
def MainWindowState.open_file (s : MainWindowState) (filename : List Char) :
    MainWindowState :=
  match assocFind s.files filename with
  | some idx => { s with current := idx }
  | none =>
    let idx := s.tabs.length
    { files := dictInsert s.files filename idx
      tabs := s.tabs ++ [pathName filename]
      current := idx }

/-!
Concrete inputs used by counterexamples and witnesses.  `sampleXml` is the
shape of a minimal event payload tree (an `Event` element whose `System` child
carries `Provider`, `EventID` and `Level`), and `sampleParse` is a concrete
stand-in for `etree.XML` that recognises exactly the payload `sampleBody`.
-/

def sampleXml (eid lvl prov : List Char) : RawXml :=
  RawXml.node "Event".toList []
    [RawXml.node "System".toList []
      [RawXml.node "Provider".toList [(keyName, prov)] [] none,
       RawXml.node "EventID".toList [] [] (some eid),
       RawXml.node "Level".toList [] [] (some lvl)] none] none

def sampleBody : List Char := "<Event/>".toList

def sampleParse (eid lvl prov : List Char) : List Char → Option RawXml :=
  fun s => if s = sampleBody then some (sampleXml eid lvl prov) else none

def xpA : List Char → Option RawXml :=
  sampleParse "1".toList "2".toList "Prov".toList

/-- A record whose payload starts with a processing instruction. -/
def recPi : RawRecord := ⟨7, "t1".toList, "<?x?><Event/>".toList⟩

/-- A record whose payload is the bare body. -/
def recClean : RawRecord := ⟨2, "t2".toList, sampleBody⟩

def demoL : List RawRecord := [recPi, recClean]

/-- A parse function whose payload carries the out-of-range level 6. -/
def xpSix : List Char → Option RawXml :=
  sampleParse "1".toList "6".toList "P".toList

/-- Two records with the same record id and different timestamps. -/
def recDupA : RawRecord := ⟨5, "ta".toList, sampleBody⟩
def recDupB : RawRecord := ⟨5, "tb".toList, sampleBody⟩
def dupL : List RawRecord := [recDupA, recDupB]

/-! ### Helper lemmas: dictionaries -/

theorem assocFind_dictInsert {ν : Type} (d : List (List Char × ν)) (k x : List Char) (v : ν) :
    assocFind (dictInsert d k v) x = if k = x then some v else assocFind d x := by
  induction d with
  | nil => simp [dictInsert, assocFind]
  | cons kv rest ih =>
    obtain ⟨k1, v1⟩ := kv
    by_cases h1 : k1 = k
    · subst h1
      by_cases h2 : k1 = x <;> simp [dictInsert, assocFind, h2]
    · by_cases h2 : k1 = x
      · subst h2
        have hne : ¬k = k1 := fun h => h1 h.symm
        simp [dictInsert, assocFind, h1, hne]
      · simp [dictInsert, assocFind, h1, h2, ih]

theorem natAssocFind_natDictInsert (d : List (Nat × EventRecord)) (k x : Nat)
    (v : EventRecord) :
    natAssocFind (natDictInsert d k v) x = if k = x then some v else natAssocFind d x := by
  induction d with
  | nil => simp [natDictInsert, natAssocFind]
  | cons kv rest ih =>
    obtain ⟨k1, v1⟩ := kv
    by_cases h1 : k1 = k
    · subst h1
      by_cases h2 : k1 = x <;> simp [natDictInsert, natAssocFind, h2]
    · by_cases h2 : k1 = x
      · subst h2
        have hne : ¬k = k1 := fun h => h1 h.symm
        simp [natDictInsert, natAssocFind, h1, hne]
      · simp [natDictInsert, natAssocFind, h1, h2, ih]

/-! ### Helper lemmas: `pyIndex` -/

theorem pyIndex_eq_none (x : Nat) (l : List Nat) : pyIndex x l = none ↔ x ∉ l := by
  induction l with
  | nil => simp [pyIndex]
  | cons y rest ih =>
    by_cases h : y = x
    · subst h; simp [pyIndex]
    · simp only [pyIndex, if_neg h, Option.map_eq_none', ih, List.mem_cons]
      constructor
      · rintro hn (rfl | hm)
        · exact h rfl
        · exact hn hm
      · intro hn hm
        exact hn (Or.inr hm)

theorem pyIndex_get (x : Nat) (l : List Nat) (row : Nat) (h : pyIndex x l = some row) :
    l[row]? = some x := by
  induction l generalizing row with
  | nil => simp [pyIndex] at h
  | cons y rest ih =>
    by_cases hy : y = x
    · subst hy
      simp [pyIndex] at h
      subst h
      simp
    · simp only [pyIndex, if_neg hy] at h
      cases hp : pyIndex x rest with
      | none => rw [hp] at h; simp at h
      | some j =>
        rw [hp] at h
        simp only [Option.map_some', Option.some.injEq] at h
        subst h
        simpa using ih j hp

/-! ### Helper lemmas: `rlast` and `stripNamespace` -/

theorem rlast_eq_none (c : Char) (s : List Char) : rlast c s = none ↔ c ∉ s := by
  induction s with
  | nil => simp [rlast]
  | cons x rest ih =>
    rw [rlast]
    cases hr : rlast c rest with
    | some j =>
      have hmem : c ∈ rest := by
        by_contra hc
        rw [ih.mpr hc] at hr
        exact Option.noConfusion hr
      simp [List.mem_cons, hmem]
    | none =>
      by_cases hx : x = c
      · rw [if_pos hx, hx]
        simp [List.mem_cons]
      · have h1 : c ∉ rest := ih.mp hr
        have h2 : ¬c = x := fun h => hx h.symm
        simp [if_neg hx, List.mem_cons, h1, h2]

theorem rlast_spec (c : Char) (s : List Char) (i : Nat) (h : rlast c s = some i) :
    s = s.take i ++ c :: s.drop (i + 1) ∧ c ∉ s.drop (i + 1) := by
  induction s generalizing i with
  | nil => simp [rlast] at h
  | cons x rest ih =>
    rw [rlast] at h
    cases hr : rlast c rest with
    | some j =>
      rw [hr] at h
      simp only [Option.some.injEq] at h
      subst h
      obtain ⟨h1, h2⟩ := ih j hr
      refine ⟨?_, ?_⟩
      · simp only [List.take_succ_cons, List.drop_succ_cons, List.cons_append,
          List.cons.injEq, true_and]
        exact h1
      · simpa using h2
    | none =>
      rw [hr] at h
      by_cases hx : x = c
      · rw [if_pos hx] at h
        simp only [Option.some.injEq] at h
        subst h
        rw [hx]
        simp only [List.take_zero, List.nil_append, List.drop_succ_cons, List.drop_zero]
        exact ⟨trivial, (rlast_eq_none c rest).mp hr⟩
      · rw [if_neg hx] at h
        exact Option.noConfusion h

theorem stripNamespace_of_not_mem (tag : List Char) (h : '}' ∉ tag) :
    stripNamespace tag = tag := by
  unfold stripNamespace
  rw [(rlast_eq_none '}' tag).mpr h]

theorem stripNamespace_of_mem (tag : List Char) (h : '}' ∈ tag) :
    ∃ pre, tag = pre ++ '}' :: stripNamespace tag ∧ '}' ∉ stripNamespace tag := by
  cases hr : rlast '}' tag with
  | none => exact absurd ((rlast_eq_none '}' tag).mp hr) (by simpa using h)
  | some i =>
    obtain ⟨h1, h2⟩ := rlast_spec '}' tag i hr
    refine ⟨tag.take i, ?_, ?_⟩
    · rw [stripNamespace, hr]
      exact h1
    · rw [stripNamespace, hr]
      exact h2

/-! ### Helper lemmas: `parse_data` and the property accessors -/

/-- The data field after `__parse_data`: unchanged when the parsed flag is
set, otherwise the prefix up to and including the first `?>` is removed. -/
theorem parse_data_data (xp : List Char → Option RawXml) (r : EventRecord) :
    ((r.parse_data xp).2).data =
      if r.parsed then r.data
      else
        match findSub ['?', '>'] r.data with
        | some idx => r.data.drop (idx + 2)
        | none => r.data := by
  by_cases hp : r.parsed
  · simp [EventRecord.parse_data, hp]
  · simp only [Bool.not_eq_true] at hp
    simp only [EventRecord.parse_data, hp, Bool.false_eq_true, if_false]
    cases hf : findSub ['?', '>'] r.data <;>
      · simp only [hf]
        repeat' split
        all_goals rfl

theorem EventID_snd (xp : List Char → Option RawXml) (r : EventRecord) :
    (r.EventID xp).2 = (r.parse_data xp).2 := by
  rw [EventRecord.EventID]
  cases hq : r.parse_data xp with
  | mk ok r1 =>
    cases ok
    · rfl
    · simp only []
      repeat' split
      all_goals rfl

theorem Provider_snd (xp : List Char → Option RawXml) (r : EventRecord) :
    (r.Provider xp).2 = (r.parse_data xp).2 := by
  rw [EventRecord.Provider]
  cases hq : r.parse_data xp with
  | mk ok r1 =>
    cases ok
    · rfl
    · simp only []
      repeat' split
      all_goals rfl

theorem Level_snd (xp : List Char → Option RawXml) (r : EventRecord) :
    (r.Level xp).2 = (r.parse_data xp).2 := by
  rw [EventRecord.Level]
  cases hq : r.parse_data xp with
  | mk ok r1 =>
    cases ok
    · rfl
    · simp only []
      repeat' split
      all_goals rfl

/-! ### Claims C1, C2, C3 -/

/-- C1: the claim states that the convenience fields are parsed from the raw
payload at most once and later accesses hit the cache.  The code is wrong:
`__parse_data` tests `self.__parsed` but no statement ever sets it to `True`
(src/evtxview.py:39,78-80), so the guard can never fire.  Evaluated here: a
first `EventID` access on a concrete record succeeds, yet the record's parsed
flag is still `false` afterwards, so the next access runs the parse again. -/
theorem claim_C1_parse_rerun :
    ((EventRecord.init recPi).EventID xpA).1 = some (some "1".toList) ∧
    ((EventRecord.init recPi).EventID xpA).2.parsed = false := by
  decide

/-- C2 counterexample: accessing `EventID` on a record whose payload starts
with a processing instruction changes the value the `data` accessor returns
(the prefix up to `?>` is removed by `__parse_data`'s reassignment of
`self.__data`, src/evtxview.py:82-84), refuting the claim that the raw text is
preserved unmodified. -/
theorem claim_C2_counterexample :
    ((EventRecord.init recPi).EventID xpA).1 = some (some "1".toList) ∧
    ((EventRecord.init recPi).EventID xpA).2.data ≠ (EventRecord.init recPi).data := by
  decide

/-- Which of the three convenience properties a caller reads. -/
inductive FieldAccess where
  | eventID
  | provider
  | level

/-- The record state after reading one convenience property
(src/evtxview.py:54-76): each property calls `__parse_data` and leaves the
state that call produces. -/
def applyAccess (xp : List Char → Option RawXml) (r : EventRecord) :
    FieldAccess → EventRecord
  | FieldAccess.eventID => (r.EventID xp).2
  | FieldAccess.provider => (r.Provider xp).2
  | FieldAccess.level => (r.Level xp).2

theorem access_data (xp : List Char → Option RawXml) (r : EventRecord)
    (a : FieldAccess) :
    (applyAccess xp r a).data = ((r.parse_data xp).2).data := by
  cases a <;> simp [applyAccess, EventID_snd, Provider_snd, Level_snd]

/-- C2 (amended): accessing any convenience field (EventID, Provider or
Level) leaves the value returned by the `data` accessor unchanged when the
record's current data contains no `?>`; when an unparsed record's data
contains `?>` first at index `idx`, the first access of any of the three
fields replaces the data by its suffix after that occurrence, and — provided
that suffix contains no further `?>` — every later sequence of convenience
field accesses leaves the data accessor returning that same suffix.  (The
parse re-runs on every access, so a suffix still containing `?>` would be
stripped again by the next access.) -/
theorem claim_C2_amended_data (xp : List Char → Option RawXml) (r : EventRecord) :
    (findSub ['?', '>'] r.data = none →
      ∀ a : FieldAccess, (applyAccess xp r a).data = r.data) ∧
    (∀ idx, r.parsed = false → findSub ['?', '>'] r.data = some idx →
      ∀ a : FieldAccess, (applyAccess xp r a).data = r.data.drop (idx + 2)) ∧
    (∀ idx, r.parsed = false → findSub ['?', '>'] r.data = some idx →
      findSub ['?', '>'] (r.data.drop (idx + 2)) = none →
      ∀ (a : FieldAccess) (accs : List FieldAccess),
        (accs.foldl (applyAccess xp) (applyAccess xp r a)).data =
          r.data.drop (idx + 2)) := by
  have hstrip : ∀ idx, r.parsed = false → findSub ['?', '>'] r.data = some idx →
      ∀ a : FieldAccess, (applyAccess xp r a).data = r.data.drop (idx + 2) := by
    intro idx hparsed hf a
    have hd := parse_data_data xp r
    rw [hparsed, hf] at hd
    simp only [Bool.false_eq_true, if_false] at hd
    rw [access_data]
    exact hd
  refine ⟨?_, hstrip, ?_⟩
  · intro hf a
    have hd := parse_data_data xp r
    rw [hf] at hd
    simp only [ite_self] at hd
    rw [access_data]
    exact hd
  · intro idx hparsed hf hclean a accs
    have hstep : ∀ r2 : EventRecord, r2.data = r.data.drop (idx + 2) →
        ∀ b : FieldAccess, (applyAccess xp r2 b).data = r.data.drop (idx + 2) := by
      intro r2 h2 b
      have hd := parse_data_data xp r2
      rw [h2, hclean] at hd
      simp only [ite_self] at hd
      rw [access_data]
      exact hd
    have hfold : ∀ (accs2 : List FieldAccess) (r2 : EventRecord),
        r2.data = r.data.drop (idx + 2) →
        (accs2.foldl (applyAccess xp) r2).data = r.data.drop (idx + 2) := by
      intro accs2
      induction accs2 with
      | nil =>
        intro r2 h2
        exact h2
      | cons b rest ih =>
        intro r2 h2
        exact ih _ (hstep r2 h2 b)
    exact hfold accs _ (hstrip idx hparsed hf a)

/-- C2 witness: the amended claim evaluated at concrete records — a field
access on a record without a processing instruction leaves the data alone; on
a record with one, a Provider access strips the prefix, and a further
sequence of Level and EventID accesses leaves the stripped suffix in
place. -/
theorem claim_C2_witness :
    (applyAccess xpA (EventRecord.init recClean) FieldAccess.eventID).data =
      (EventRecord.init recClean).data ∧
    (applyAccess xpA (EventRecord.init recPi) FieldAccess.provider).data =
      (EventRecord.init recPi).data.drop 5 ∧
    ([FieldAccess.level, FieldAccess.eventID].foldl (applyAccess xpA)
        (applyAccess xpA (EventRecord.init recPi) FieldAccess.eventID)).data =
      (EventRecord.init recPi).data.drop 5 :=
  ⟨(claim_C2_amended_data xpA (EventRecord.init recClean)).1 (by decide)
      FieldAccess.eventID,
    (claim_C2_amended_data xpA (EventRecord.init recPi)).2.1 3 (by decide) (by decide)
      FieldAccess.provider,
    (claim_C2_amended_data xpA (EventRecord.init recPi)).2.2 3 (by decide) (by decide)
      (by decide) FieldAccess.eventID [FieldAccess.level, FieldAccess.eventID]⟩

/-- C3 counterexample: a record whose payload carries numeric level 6 (outside
0..5).  The parse stores the string `6` in the attribute dictionary, but the
`Level` accessor raises (`KeyError` from the `levels` dictionary,
src/evtxview.py:76) instead of returning the numeric string `6` the claim
promises. -/
theorem claim_C3_counterexample :
    assocFind (((EventRecord.init recClean).parse_data xpSix).2).attrib keyLevel
        = some (some "6".toList) ∧
    ((EventRecord.init recClean).Level xpSix).1 = none := by
  decide

/-- C3 (amended): the `Level` accessor maps a numeric level through the fixed
enumeration 0=LogAlways, 1=Critical, 2=Error, 3=Warning, 4=Informational,
5=Verbose, and for a numeric level outside 0..5 it fails (the `levels`
dictionary lookup raises) rather than returning the numeric string. -/
theorem claim_C3_amended_level (xp : List Char → Option RawXml) (r r1 : EventRecord)
    (s : List Char) (n : Int)
    (hp : r.parse_data xp = (true, r1))
    (ha : assocFind r1.attrib keyLevel = some (some s))
    (hn : strToInt s = some n) :
    (r.Level xp).1 = levels n ∧
    levels 0 = some "LogAlways".toList ∧
    levels 1 = some "Critical".toList ∧
    levels 2 = some "Error".toList ∧
    levels 3 = some "Warning".toList ∧
    levels 4 = some "Informational".toList ∧
    levels 5 = some "Verbose".toList ∧
    ((n < 0 ∨ 5 < n) → (r.Level xp).1 = none) := by
  have hL : (r.Level xp).1 = levels n := by
    simp only [EventRecord.Level]
    rw [hp]
    simp [ha, hn]
  refine ⟨hL, by decide, by decide, by decide, by decide, by decide, by decide,
    fun hout => ?_⟩
  rw [hL]
  have h0 : n ≠ 0 := by omega
  have h1 : n ≠ 1 := by omega
  have h2 : n ≠ 2 := by omega
  have h3 : n ≠ 3 := by omega
  have h4 : n ≠ 4 := by omega
  have h5 : n ≠ 5 := by omega
  simp [levels, h0, h1, h2, h3, h4, h5]

/-- The record state produced by parsing `recClean` against `xpA`. -/
def r1A : EventRecord :=
  { id := 2, timestamp := "t2".toList, data := sampleBody, parsed := false,
    attrib := [(keyEventID, some "1".toList), (keyLevel, some "2".toList),
               (keyProvider, some "Prov".toList)] }

/-- The record state produced by parsing `recClean` against `xpSix`. -/
def r1Six : EventRecord :=
  { id := 2, timestamp := "t2".toList, data := sampleBody, parsed := false,
    attrib := [(keyEventID, some "1".toList), (keyLevel, some "6".toList),
               (keyProvider, some "P".toList)] }

/-- C3 witness: the amended claim evaluated at level 2 (inside the
enumeration) and at level 6 (outside, the accessor fails). -/
theorem claim_C3_witness :
    ((EventRecord.init recClean).Level xpA).1 = levels 2 ∧
    ((EventRecord.init recClean).Level xpSix).1 = none := by
  exact ⟨(claim_C3_amended_level xpA (EventRecord.init recClean) r1A "2".toList 2
      (by decide) (by decide) (by decide)).1,
    (claim_C3_amended_level xpSix (EventRecord.init recClean) r1Six "6".toList 6
      (by decide) (by decide) (by decide)).2.2.2.2.2.2.2 (by decide)⟩

/-! ### Helper lemmas: `load_data`, `get_records`, `by_id` -/

theorem load_foldl_ids (L : List RawRecord) (m : EvtxViewModel) :
    (L.foldl EvtxViewModel.loadStep m).record_ids =
      m.record_ids ++ L.map (fun x => x.event_record_id) := by
  induction L generalizing m with
  | nil => simp
  | cons x rest ih =>
    simp only [List.foldl_cons, List.map_cons]
    rw [ih]
    simp [EvtxViewModel.loadStep]

theorem load_foldl_records (L : List RawRecord) (m : EvtxViewModel) (i : Nat) :
    natAssocFind (L.foldl EvtxViewModel.loadStep m).records i =
      (((L.filter (fun x => x.event_record_id == i)).getLast?).map EventRecord.init).or
        (natAssocFind m.records i) := by
  induction L using List.reverseRecOn with
  | nil => simp
  | append_singleton rest x ih =>
    rw [List.foldl_append, List.filter_append]
    simp only [List.foldl_cons, List.foldl_nil]
    by_cases hx : x.event_record_id = i
    · have h1 : List.filter (fun y => y.event_record_id == i) [x] = [x] := by simp [hx]
      rw [h1, List.getLast?_concat]
      simp only [EvtxViewModel.loadStep]
      rw [natAssocFind_natDictInsert, if_pos hx]
      rfl
    · have h1 : List.filter (fun y => y.event_record_id == i) [x] = [] := by simp [hx]
      rw [h1, List.append_nil]
      simp only [EvtxViewModel.loadStep]
      rw [natAssocFind_natDictInsert, if_neg hx]
      exact ih

theorem load_records_eq (L : List RawRecord) (i : Nat) :
    natAssocFind (EvtxViewModel.load_data L).records i =
      ((L.filter (fun x => x.event_record_id == i)).getLast?).map EventRecord.init := by
  simp only [EvtxViewModel.load_data]
  rw [load_foldl_records]
  cases hX : ((L.filter (fun x => x.event_record_id == i)).getLast?).map EventRecord.init <;>
    rfl

theorem load_ids_eq (L : List RawRecord) :
    (EvtxViewModel.load_data L).record_ids =
      (L.map (fun x => x.event_record_id)).insertionSort (· ≤ ·) := by
  simp only [EvtxViewModel.load_data]
  rw [load_foldl_ids]
  simp

theorem load_ids_perm (L : List RawRecord) :
    (EvtxViewModel.load_data L).record_ids.Perm (L.map fun x => x.event_record_id) := by
  rw [load_ids_eq]
  exact List.perm_insertionSort _ _

theorem mem_load_ids (L : List RawRecord) (i : Nat) :
    i ∈ (EvtxViewModel.load_data L).record_ids ↔
      i ∈ L.map (fun x => x.event_record_id) :=
  (load_ids_perm L).mem_iff

theorem load_ids_sorted (L : List RawRecord) :
    List.Sorted (· ≤ ·) (EvtxViewModel.load_data L).record_ids := by
  rw [load_ids_eq]
  exact List.sorted_insertionSort _ _

theorem load_ids_sorted_lt (L : List RawRecord)
    (h : (L.map fun x => x.event_record_id).Nodup) :
    List.Sorted (· < ·) (EvtxViewModel.load_data L).record_ids :=
  (load_ids_sorted L).lt_of_le ((load_ids_perm L).nodup_iff.mpr h)

theorem load_lookup_of_mem (L : List RawRecord) (i : Nat)
    (h : i ∈ L.map fun x => x.event_record_id) :
    ∃ r, natAssocFind (EvtxViewModel.load_data L).records i = some r ∧ r.id = i := by
  rw [load_records_eq]
  obtain ⟨x, hxL, hxi⟩ := List.mem_map.mp h
  have hxf : x ∈ L.filter (fun y => y.event_record_id == i) := by
    rw [List.mem_filter]
    exact ⟨hxL, by simp [hxi]⟩
  have hne : L.filter (fun y => y.event_record_id == i) ≠ [] := by
    intro hnil
    rw [hnil] at hxf
    cases hxf
  cases hg : (L.filter (fun y => y.event_record_id == i)).getLast? with
  | none => exact absurd (List.getLast?_eq_none_iff.mp hg) hne
  | some y =>
    refine ⟨EventRecord.init y, rfl, ?_⟩
    have hy := List.mem_of_mem_getLast? hg
    have hyb := (List.mem_filter.mp hy).2
    have hyi : y.event_record_id = i := by simpa using hyb
    simp [EventRecord.init, hyi]

theorem load_lookup_mem (L : List RawRecord) (i : Nat) (r : EventRecord)
    (h : natAssocFind (EvtxViewModel.load_data L).records i = some r) :
    r.id = i ∧ ∃ x ∈ L, x.event_record_id = i ∧ r = EventRecord.init x := by
  rw [load_records_eq] at h
  cases hg : (L.filter (fun y => y.event_record_id == i)).getLast? with
  | none =>
    rw [hg] at h
    exact Option.noConfusion h
  | some y =>
    rw [hg] at h
    simp only [Option.map_some', Option.some.injEq] at h
    subst h
    have hy := List.mem_of_mem_getLast? hg
    obtain ⟨hyL, hyb⟩ := List.mem_filter.mp hy
    have hyi : y.event_record_id = i := by simpa using hyb
    exact ⟨by simp [EventRecord.init, hyi], y, hyL, hyi, rfl⟩

theorem filter_eq_single (L : List RawRecord)
    (h : (L.map fun x => x.event_record_id).Nodup) (x : RawRecord) (hx : x ∈ L) :
    L.filter (fun y => y.event_record_id == x.event_record_id) = [x] := by
  induction L with
  | nil => cases hx
  | cons a rest ih =>
    rw [List.map_cons, List.nodup_cons] at h
    rcases List.mem_cons.mp hx with rfl | hmem
    · have hnone : rest.filter (fun y => y.event_record_id == x.event_record_id) = [] := by
        rw [List.filter_eq_nil_iff]
        intro y hy hb
        have hyx : y.event_record_id = x.event_record_id := by simpa using hb
        exact h.1 (hyx ▸ List.mem_map_of_mem (fun z => z.event_record_id) hy)
      rw [List.filter_cons, hnone]
      simp
    · have hne : (a.event_record_id == x.event_record_id) = false := by
        rw [beq_eq_false_iff_ne]
        intro he
        exact h.1 (he ▸ List.mem_map_of_mem (fun z => z.event_record_id) hmem)
      rw [List.filter_cons]
      simp only [hne, Bool.false_eq_true, if_false]
      exact ih h.2 hmem

theorem load_lookup_nodup (L : List RawRecord)
    (h : (L.map fun x => x.event_record_id).Nodup) (x : RawRecord) (hx : x ∈ L) :
    natAssocFind (EvtxViewModel.load_data L).records x.event_record_id =
      some (EventRecord.init x) := by
  rw [load_records_eq, filter_eq_single L h x hx]
  rfl

/-- A throwaway record used only as the (never reached) default of `getD`. -/
def defaultRecord : EventRecord := EventRecord.init ⟨0, [], []⟩

/-- The record stored for id `i` in the loaded model. -/
def recOf (L : List RawRecord) (i : Nat) : EventRecord :=
  (natAssocFind (EvtxViewModel.load_data L).records i).getD defaultRecord

theorem lookupAll_eq (records : List (Nat × EventRecord)) (ids : List Nat)
    (h : ∀ i ∈ ids, (natAssocFind records i).isSome) :
    lookupAll records ids =
      some (ids.map fun i => (natAssocFind records i).getD defaultRecord) := by
  induction ids with
  | nil => rfl
  | cons i rest ih =>
    have hi := h i (List.mem_cons_self i rest)
    cases hf : natAssocFind records i with
    | none =>
      rw [hf] at hi
      simp at hi
    | some r =>
      rw [lookupAll, hf, ih (fun j hj => h j (List.mem_cons_of_mem i hj))]
      simp [hf]

theorem get_records_load (L : List RawRecord) :
    (EvtxViewModel.load_data L).get_records =
      some ((EvtxViewModel.load_data L).record_ids.map (recOf L)) := by
  have h : ∀ i ∈ (EvtxViewModel.load_data L).record_ids,
      (natAssocFind (EvtxViewModel.load_data L).records i).isSome := by
    intro i hi
    obtain ⟨r, hr, _⟩ := load_lookup_of_mem L i ((mem_load_ids L i).mp hi)
    rw [hr]
    rfl
  exact lookupAll_eq _ _ h

theorem recOf_id (L : List RawRecord) (i : Nat)
    (hi : i ∈ (EvtxViewModel.load_data L).record_ids) : (recOf L i).id = i := by
  obtain ⟨r, hr, hrid⟩ := load_lookup_of_mem L i ((mem_load_ids L i).mp hi)
  rw [recOf, hr]
  exact hrid

theorem map_recOf_ids (L : List RawRecord) :
    ((EvtxViewModel.load_data L).record_ids.map (recOf L)).map (fun r => r.id) =
      (EvtxViewModel.load_data L).record_ids := by
  rw [List.map_map]
  have h : ∀ i ∈ (EvtxViewModel.load_data L).record_ids,
      ((fun r => r.id) ∘ recOf L) i = (fun i => i) i := fun i hi => recOf_id L i hi
  rw [List.map_eq_map_iff.mpr h]
  simp

/-! ### Claims C4, C5, C6 -/

/-- C4: for a loaded file whose records have pairwise distinct record ids,
enumerating all records (`get_records`) yields exactly the N loaded records
— a permutation of the constructed `EventRecord`s, of the same length — in
strictly ascending record-id order. -/
theorem claim_C4_all_sorted (L : List RawRecord)
    (h : (L.map fun x => x.event_record_id).Nodup) :
    ∃ l, (EvtxViewModel.load_data L).get_records = some l ∧
      l.Perm (L.map EventRecord.init) ∧
      List.Sorted (· < ·) (l.map fun r => r.id) ∧
      l.length = L.length := by
  refine ⟨(EvtxViewModel.load_data L).record_ids.map (recOf L), get_records_load L,
    ?_, ?_, ?_⟩
  · have h1 : (L.map fun x => x.event_record_id).map (recOf L) = L.map EventRecord.init := by
      rw [List.map_map]
      apply List.map_eq_map_iff.mpr
      intro x hxL
      show recOf L x.event_record_id = EventRecord.init x
      rw [recOf, load_lookup_nodup L h x hxL]
      rfl
    exact h1 ▸ ((load_ids_perm L).map (recOf L))
  · rw [map_recOf_ids]
    exact load_ids_sorted_lt L h
  · rw [List.length_map, (load_ids_perm L).length_eq, List.length_map]

/-- C4 witness: the claim evaluated on a concrete two-record load. -/
theorem claim_C4_witness :
    ∃ l, (EvtxViewModel.load_data demoL).get_records = some l ∧
      l.Perm (demoL.map EventRecord.init) ∧
      List.Sorted (· < ·) (l.map fun r => r.id) ∧
      l.length = demoL.length :=
  claim_C4_all_sorted demoL (by decide)

/-- C5 counterexample: loading two records with the same id 5 leaves the later
occurrence as the looked-up record (that part of the claim holds), but the
diagnostics of the loaded model are empty — `load_data`
(src/evtxview.py:122-127) records nothing — so no `DuplicateRecordId`
diagnostic is recorded, refuting the claim as stated. -/
theorem claim_C5_counterexample :
    (EvtxViewModel.load_data dupL).by_id 5 = some (EventRecord.init recDupB) ∧
    EventRecord.init recDupB ≠ EventRecord.init recDupA ∧
    (EvtxViewModel.load_data dupL).diagnostics = [] ∧
    Diagnostic.DuplicateRecordId 5 ∉ (EvtxViewModel.load_data dupL).diagnostics := by
  decide

/-- C5 (amended): when the input yields several records with the same id, the
lookup for that id returns the later occurrence (the last one in input
order), and no diagnostic of any kind is recorded — the code has no
diagnostics mechanism. -/
theorem claim_C5_amended_later_wins (L : List RawRecord) (i : Nat) (x : RawRecord)
    (h : (L.filter fun y => y.event_record_id == i).getLast? = some x) :
    (EvtxViewModel.load_data L).by_id i = some (EventRecord.init x) ∧
    (EvtxViewModel.load_data L).diagnostics = [] := by
  refine ⟨?_, rfl⟩
  have hx := List.mem_of_mem_getLast? h
  obtain ⟨hxL, hxb⟩ := List.mem_filter.mp hx
  have hxi : x.event_record_id = i := by simpa using hxb
  have hi : i ∈ L.map (fun y => y.event_record_id) :=
    hxi ▸ List.mem_map_of_mem (fun y => y.event_record_id) hxL
  have him : i ∈ (EvtxViewModel.load_data L).record_ids := (mem_load_ids L i).mpr hi
  obtain ⟨row, hrow⟩ : ∃ row, pyIndex i (EvtxViewModel.load_data L).record_ids = some row := by
    cases hp : pyIndex i (EvtxViewModel.load_data L).record_ids with
    | none => exact absurd him ((pyIndex_eq_none _ _).mp hp)
    | some row => exact ⟨row, rfl⟩
  have hget := pyIndex_get i _ row hrow
  have hfind : natAssocFind (EvtxViewModel.load_data L).records i =
      some (EventRecord.init x) := by
    rw [load_records_eq, h]
    rfl
  simp [EvtxViewModel.by_id, hrow, hget, hfind]

/-- C5 witness: the amended claim evaluated on the concrete duplicate-id
input. -/
theorem claim_C5_witness :
    (EvtxViewModel.load_data dupL).by_id 5 = some (EventRecord.init recDupB) ∧
    (EvtxViewModel.load_data dupL).diagnostics = [] :=
  claim_C5_amended_later_wins dupL 5 recDupB (by decide)

/-- C6: looking an id up in the loaded index (`by_id`, the
`scroll_to_record_id` lookup path) returns no record — and raises no error —
when no record with that id was loaded, and when one was loaded it returns
exactly the record with that id that the full enumeration (`get_records`)
yields. -/
theorem claim_C6_by_id (L : List RawRecord) (i : Nat) :
    (i ∉ L.map (fun x => x.event_record_id) →
      (EvtxViewModel.load_data L).by_id i = none) ∧
    (i ∈ L.map (fun x => x.event_record_id) →
      ∃ r l, (EvtxViewModel.load_data L).by_id i = some r ∧
        (EvtxViewModel.load_data L).get_records = some l ∧
        r ∈ l ∧ r.id = i ∧ ∀ r2 ∈ l, r2.id = i → r2 = r) := by
  constructor
  · intro hni
    have hpz : pyIndex i (EvtxViewModel.load_data L).record_ids = none :=
      (pyIndex_eq_none _ _).mpr (fun hm => hni ((mem_load_ids L i).mp hm))
    simp [EvtxViewModel.by_id, hpz]
  · intro hi
    have him : i ∈ (EvtxViewModel.load_data L).record_ids := (mem_load_ids L i).mpr hi
    obtain ⟨row, hrow⟩ : ∃ row, pyIndex i (EvtxViewModel.load_data L).record_ids = some row := by
      cases hp : pyIndex i (EvtxViewModel.load_data L).record_ids with
      | none => exact absurd him ((pyIndex_eq_none _ _).mp hp)
      | some row => exact ⟨row, rfl⟩
    have hget := pyIndex_get i _ row hrow
    obtain ⟨r, hr, hrid⟩ := load_lookup_of_mem L i hi
    have hgi : recOf L i = r := by
      rw [recOf, hr]
      rfl
    refine ⟨r, (EvtxViewModel.load_data L).record_ids.map (recOf L), ?_,
      get_records_load L, ?_, hrid, ?_⟩
    · simp [EvtxViewModel.by_id, hrow, hget, hr]
    · exact hgi ▸ List.mem_map_of_mem (recOf L) him
    · intro r2 hr2 hr2i
      obtain ⟨i2, hi2, hgi2⟩ := List.mem_map.mp hr2
      obtain ⟨r2x, hr2x, hr2xid⟩ := load_lookup_of_mem L i2 ((mem_load_ids L i2).mp hi2)
      have hg2 : recOf L i2 = r2x := by
        rw [recOf, hr2x]
        rfl
      have hi2i : i2 = i := by
        rw [← hr2i, ← hgi2, hg2, hr2xid]
      rw [hi2i] at hr2x
      rw [hr2x] at hr
      rw [← hgi2, hg2]
      exact Option.some.inj hr

/-- C6 witness: the lookup evaluated on a concrete load, at an absent id (3)
and at a present id (7). -/
theorem claim_C6_witness :
    (EvtxViewModel.load_data demoL).by_id 3 = none ∧
    ∃ r l, (EvtxViewModel.load_data demoL).by_id 7 = some r ∧
      (EvtxViewModel.load_data demoL).get_records = some l ∧
      r ∈ l ∧ r.id = 7 ∧ ∀ r2 ∈ l, r2.id = 7 → r2 = r :=
  ⟨(claim_C6_by_id demoL 3).1 (by decide), (claim_C6_by_id demoL 7).2 (by decide)⟩

/-! ### Claim C7 -/

theorem searchLoop_eq (xp : List Char → Option RawXml) (text : List Char) (inData : Bool)
    (recs : List EventRecord)
    (h : ∀ r ∈ recs, (searchCond xp text inData r).isSome) :
    searchLoop xp text inData recs =
      some ((recs.filter (searchMatches xp text inData)).map fun r => (r.id, r.timestamp)) := by
  induction recs with
  | nil => rfl
  | cons r rest ih =>
    have hr := h r (List.mem_cons_self r rest)
    cases hc : searchCond xp text inData r with
    | none =>
      rw [hc] at hr
      simp at hr
    | some br =>
      obtain ⟨b, r1⟩ := br
      rw [searchLoop, hc, ih (fun r2 h2 => h r2 (List.mem_cons_of_mem r h2))]
      have hm : searchMatches xp text inData r = b := by
        rw [searchMatches, hc]
      cases b <;> simp [List.filter_cons, hm]

/-- C7: on a loaded index with pairwise distinct record ids, the search of
`action_search` produces — for the code's predicate family over provider
name, EventID text and raw data, and provided no record's predicate
evaluation raises — exactly the (id, timestamp) entries of the records
satisfying the predicate, listed in ascending record-id order. -/
theorem claim_C7_search (xp : List Char → Option RawXml) (text : List Char)
    (inData : Bool) (L : List RawRecord) (recs : List EventRecord)
    (hnd : (L.map fun x => x.event_record_id).Nodup)
    (hg : (EvtxViewModel.load_data L).get_records = some recs)
    (hc : ∀ r ∈ recs, (searchCond xp text inData r).isSome) :
    searchLoop xp text inData recs =
      some ((recs.filter (searchMatches xp text inData)).map fun r => (r.id, r.timestamp)) ∧
    List.Sorted (· < ·)
      (((recs.filter (searchMatches xp text inData)).map
        (fun r => (r.id, r.timestamp))).map Prod.fst) := by
  refine ⟨searchLoop_eq xp text inData recs hc, ?_⟩
  have hrecs : recs = (EvtxViewModel.load_data L).record_ids.map (recOf L) := by
    rw [get_records_load L] at hg
    exact (Option.some.inj hg).symm
  rw [List.map_map]
  show List.Sorted (· < ·)
    ((recs.filter (searchMatches xp text inData)).map fun r => r.id)
  rw [List.Sorted, List.pairwise_map]
  apply List.Pairwise.filter
  rw [← List.pairwise_map (f := fun r : EventRecord => r.id)]
  have hsort : List.Sorted (· < ·) (recs.map fun r => r.id) := by
    rw [hrecs, map_recOf_ids]
    exact load_ids_sorted_lt L hnd
  exact hsort

/-- The enumeration of the concrete demo load. -/
def recsDemo : List EventRecord := [EventRecord.init recClean, EventRecord.init recPi]

/-- C7 witness: the search evaluated on the concrete demo load with search
text `Pro`. -/
theorem claim_C7_witness :
    searchLoop xpA "Pro".toList false recsDemo =
      some ((recsDemo.filter (searchMatches xpA "Pro".toList false)).map
        fun r => (r.id, r.timestamp)) ∧
    List.Sorted (· < ·)
      (((recsDemo.filter (searchMatches xpA "Pro".toList false)).map
        (fun r => (r.id, r.timestamp))).map Prod.fst) :=
  claim_C7_search xpA "Pro".toList false demoL recsDemo (by decide) (by decide) (by decide)

/-! ### Claim C8 -/

theorem assocFind_foldl_dictInsert {ν : Type} (l : List (List Char × ν))
    (d0 : List (List Char × ν)) (k : List Char) (v : ν)
    (h : assocFind (l.foldl (fun acc kv => dictInsert acc kv.1 kv.2) d0) k = some v) :
    (k, v) ∈ l ∨ assocFind d0 k = some v := by
  induction l generalizing d0 with
  | nil => exact Or.inr h
  | cons kv rest ih =>
    rw [List.foldl_cons] at h
    rcases ih (dictInsert d0 kv.1 kv.2) h with hmem | hfind
    · exact Or.inl (List.mem_cons_of_mem kv hmem)
    · rw [assocFind_dictInsert] at hfind
      by_cases hk : kv.1 = k
      · rw [if_pos hk] at hfind
        have hv : kv.2 = v := Option.some.inj hfind
        left
        have hkv : kv = (k, v) := by
          obtain ⟨a, b⟩ := kv
          simp only [Prod.mk.injEq]
          exact ⟨hk, hv⟩
        rw [hkv]
        exact List.mem_cons_self _ _
      · rw [if_neg hk] at hfind
        exact Or.inr hfind

theorem ofRawChildren_mem (children : List RawXml) (k : List Char) (x : XmlElement)
    (h : (k, x) ∈ XmlElement.ofRawChildren children) :
    ∃ c ∈ children, stripNamespace c.tag = k ∧ x = XmlElement.ofRaw c := by
  induction children with
  | nil =>
    rw [XmlElement.ofRawChildren] at h
    cases h
  | cons c rest ih =>
    rw [XmlElement.ofRawChildren] at h
    rcases List.mem_cons.mp h with heq | hmem
    · rw [Prod.mk.injEq] at heq
      exact ⟨c, List.mem_cons_self c rest, heq.1.symm, heq.2⟩
    · obtain ⟨c2, hc2, h1, h2⟩ := ih hmem
      exact ⟨c2, List.mem_cons_of_mem c hc2, h1, h2⟩

/-- C8: the tag name under which a decoded element's child is stored and
looked up is namespace-stripped: when the raw tag has no `\x7d` it is kept
whole, otherwise the stored name is the substring after the last `\x7d`; and
every successful child lookup in a wrapped element returns the wrapper of a
raw child whose stripped tag is the key. -/
theorem claim_C8_namespace_strip (tag : List Char) :
    ('}' ∉ tag → stripNamespace tag = tag) ∧
    ('}' ∈ tag → ∃ pre, tag = pre ++ '}' :: stripNamespace tag ∧
      '}' ∉ stripNamespace tag) ∧
    (∀ (e : RawXml) (x : XmlElement), (XmlElement.ofRaw e).getItem tag = some x →
      ∃ c ∈ e.childList, stripNamespace c.tag = tag ∧ x = XmlElement.ofRaw c) := by
  refine ⟨stripNamespace_of_not_mem tag, stripNamespace_of_mem tag, ?_⟩
  intro e x h
  obtain ⟨t, a, ch, tx⟩ := e
  rw [XmlElement.getItem] at h
  simp only [XmlElement.ofRaw, XmlElement.children] at h
  rcases assocFind_foldl_dictInsert _ _ _ _ h with hmem | hnil
  · obtain ⟨c, hc, h1, h2⟩ := ofRawChildren_mem ch tag x hmem
    exact ⟨c, hc, h1, h2⟩
  · rw [assocFind] at hnil
    exact Option.noConfusion hnil

/-- A tag carrying a namespace prefix, `ns` then a closing brace then
`System`. -/
def tagNs : List Char := "ns\x7dSystem".toList

/-- C8 witness: stripping evaluated on a tag without a brace and on the
concrete namespaced tag `tagNs`. -/
theorem claim_C8_witness :
    stripNamespace "System".toList = "System".toList ∧
    (∃ pre, tagNs = pre ++ '}' :: stripNamespace tagNs ∧
      '}' ∉ stripNamespace tagNs) :=
  ⟨(claim_C8_namespace_strip "System".toList).1 (by decide),
   (claim_C8_namespace_strip tagNs).2.1 (by decide)⟩

/-! ### Claim C9 -/

theorem navigate_step_bounds (n : Nat) (hn : 1 ≤ n) (d i : Int)
    (h0 : 0 ≤ i) (h1 : i < (n : Int)) :
    0 ≤ navigate_search n d i ∧ navigate_search n d i < (n : Int) := by
  simp only [navigate_search]
  split_ifs with hd1 hz hd2
  · constructor <;> omega
  · constructor <;> omega
  · have hpos : (0 : Int) < (n : Int) := by exact_mod_cast hn
    exact ⟨Int.emod_nonneg _ (by omega), Int.emod_lt_of_pos _ hpos⟩
  · exact ⟨h0, h1⟩

/-- C9: with a non-empty result list of length n, the current-result index
stays within 0..n-1 under any sequence of Previous (-1) / Next (1) steps
starting from the initial index 0 that `display_search_results` sets, and the
navigation is cyclic: Previous from 0 lands on n-1, Next from n-1 lands
on 0. -/
theorem claim_C9_navigation (n : Nat) (dirs : List Int) (hn : 1 ≤ n)
    (hd : ∀ d ∈ dirs, d = -1 ∨ d = 1) :
    (0 ≤ dirs.foldl (fun i d => navigate_search n d i) 0 ∧
      dirs.foldl (fun i d => navigate_search n d i) 0 < (n : Int)) ∧
    navigate_search n (-1) 0 = (n : Int) - 1 ∧
    navigate_search n 1 ((n : Int) - 1) = 0 := by
  refine ⟨?_, ?_, ?_⟩
  · have key : ∀ (ds : List Int) (i : Int), 0 ≤ i → i < (n : Int) →
        0 ≤ ds.foldl (fun i d => navigate_search n d i) i ∧
        ds.foldl (fun i d => navigate_search n d i) i < (n : Int) := by
      intro ds
      induction ds with
      | nil =>
        intro i h0 h1
        exact ⟨h0, h1⟩
      | cons d rest ih =>
        intro i h0 h1
        obtain ⟨g0, g1⟩ := navigate_step_bounds n hn d i h0 h1
        exact ih _ g0 g1
    exact key dirs 0 (le_refl 0) (by exact_mod_cast hn)
  · unfold navigate_search
    norm_num
  · unfold navigate_search
    norm_num

/-- C9 witness: the navigation bounds and wrap-around evaluated with three
results and a concrete step sequence. -/
theorem claim_C9_witness :
    (0 ≤ [(-1 : Int), 1, 1, -1].foldl (fun i d => navigate_search 3 d i) 0 ∧
      [(-1 : Int), 1, 1, -1].foldl (fun i d => navigate_search 3 d i) 0 < (3 : Int)) ∧
    navigate_search 3 (-1) 0 = (3 : Int) - 1 ∧
    navigate_search 3 1 ((3 : Int) - 1) = 0 :=
  claim_C9_navigation 3 [(-1 : Int), 1, 1, -1] (by decide) (by decide)

/-! ### Claim C10 -/

/-- C10: opening a filename that is already in the open-files map adds no tab
and changes no map entry; the stored tab index is merely selected as
current. -/
theorem claim_C10_open_idempotent (s : MainWindowState) (filename : List Char) (idx : Nat)
    (h : assocFind s.files filename = some idx) :
    s.open_file filename =
      { files := s.files, tabs := s.tabs, current := idx } := by
  rw [MainWindowState.open_file, h]

/-- Two files already open in two tabs. -/
def demoState : MainWindowState :=
  { files := [("a.evtx".toList, 0), ("b.evtx".toList, 1)]
    tabs := ["a.evtx".toList, "b.evtx".toList]
    current := 1 }

/-- C10 witness: reopening `a.evtx` in the concrete two-tab state. -/
theorem claim_C10_witness :
    demoState.open_file "a.evtx".toList =
      { files := demoState.files, tabs := demoState.tabs, current := 0 } :=
  claim_C10_open_idempotent demoState "a.evtx".toList 0 (by decide)
